import Mathlib

/-!
Shallow embedding of the grep-rust streaming match-and-context engine.

The central piece of the program is the run function in my_lib.rs: it reads a
file line by line and, for each line, either emits it (as a highlighted match
or as a plain context line) or buffers it as potential before-context.  The
mutable GrepState struct of the source is embedded as a Lean structure, and
the body of the per-line match statement becomes the pure step function
processLine, producing the successor state together with the list of emitted
output events.  The whole loop is a left fold over the list of input lines.

The pattern matcher is the external regex crate; following the spec it is
treated as a collaborator.  The literal fragment that the program actually
uses (regex escape of the query, then find) is modelled by lexLiteral,
regexNew and regexMatch below.  File access and the informational banner of
printer.rs are modelled by runModel and bannerSegments respectively.
-/

/-- Output events emitted while processing lines: a plain context line or a
highlighted match line, each tagged with its 1-based line number.  These
correspond to the print_line and print_highlighted_line calls of the source. -/
inductive OutputEvent where
  | plain (lineNum : Nat) (content : String)
  | matchLine (lineNum : Nat) (content : String)
  deriving DecidableEq, Repr

/-- The 1-based line number carried by an output event. -/
def OutputEvent.lineNum : OutputEvent → Nat
  | OutputEvent.plain n _ => n
  | OutputEvent.matchLine n _ => n

/-- Mutable state of the grep operation, embedded from the GrepState struct of
my_lib.rs.  The before-context buffer is a FIFO queue (front of the list is
the oldest entry), matching the VecDeque of the source. -/
structure GrepState where
  line_count : Nat
  before_context_buffer : List (Nat × String)
  lines_after_match : Nat
  printing_block_active : Bool
  deriving DecidableEq, Repr

/-- Initial state, embedded from GrepState::new. -/
def GrepState.new : GrepState :=
  { line_count := 0
    before_context_buffer := []
    lines_after_match := 0
    printing_block_active := false }

/-- One iteration of the line loop of run in my_lib.rs, for matcher m,
before-context count B and after-context count A.  The line counter is
incremented first; then the three arms of the source match statement:
a matching line flushes the before-context buffer when no printing block is
active and B is positive, clears the buffer, emits the match and resets the
after-context counter; a non-matching line inside an active after-context
window is emitted and decrements the counter; any other line is pushed into
the bounded before-context buffer, evicting the oldest entry on overflow. -/
def processLine (m : String → Bool) (B A : Nat) (st : GrepState) (line : String) :
    GrepState × List OutputEvent :=
  let lc := st.line_count + 1
  if m line then
    let flushed :=
      if st.printing_block_active = false ∧ 0 < B then
        st.before_context_buffer.map (fun p => OutputEvent.plain p.1 p.2)
      else []
    ({ line_count := lc
       before_context_buffer := []
       lines_after_match := A
       printing_block_active := true },
      flushed ++ [OutputEvent.matchLine lc line])
  else if 0 < st.lines_after_match then
    ({ line_count := lc
       before_context_buffer := st.before_context_buffer
       lines_after_match := st.lines_after_match - 1
       printing_block_active := true },
      [OutputEvent.plain lc line])
  else
    let pushed := st.before_context_buffer ++ [(lc, line)]
    ({ line_count := lc
       before_context_buffer := if B < pushed.length then pushed.tail else pushed
       lines_after_match := st.lines_after_match
       printing_block_active := false },
      ([] : List OutputEvent))

/-- Accumulating step: thread the state through processLine and append the
emitted events to the output accumulated so far. -/
def stepAcc (m : String → Bool) (B A : Nat) (acc : GrepState × List OutputEvent)
    (line : String) : GrepState × List OutputEvent :=
  ((processLine m B A acc.1 line).1, acc.2 ++ (processLine m B A acc.1 line).2)

/-- The line-processing loop of run: fold processLine over the input lines
starting from the fresh state, collecting all emitted output events. -/
def runGrep (m : String → Bool) (B A : Nat) (lines : List String) :
    GrepState × List OutputEvent :=
  List.foldl (stepAcc m B A) (GrepState.new, []) lines

/-- Largest line number emitted so far (0 when nothing was emitted).  Because
emission happens in increasing line order, this is the line number of the most
recently emitted line. -/
def lastEmitted (out : List OutputEvent) : Nat :=
  List.foldl Nat.max 0 (out.map OutputEvent.lineNum)

/-- Modelled from the spec: the number of lines available before the next line,
counted since the start of the file or since the last emitted line. -/
def availablePreceding (totalLines : Nat) (out : List OutputEvent) : Nat :=
  totalLines - lastEmitted out

/-- Variant of processLine with the printing_block_active test removed from
the flush guard of the match path: the buffer is flushed whenever B is
positive.  Everything else is identical to processLine. -/
def processLineNF (m : String → Bool) (B A : Nat) (st : GrepState) (line : String) :
    GrepState × List OutputEvent :=
  let lc := st.line_count + 1
  if m line then
    let flushed :=
      if 0 < B then
        st.before_context_buffer.map (fun p => OutputEvent.plain p.1 p.2)
      else []
    ({ line_count := lc
       before_context_buffer := []
       lines_after_match := A
       printing_block_active := true },
      flushed ++ [OutputEvent.matchLine lc line])
  else if 0 < st.lines_after_match then
    ({ line_count := lc
       before_context_buffer := st.before_context_buffer
       lines_after_match := st.lines_after_match - 1
       printing_block_active := true },
      [OutputEvent.plain lc line])
  else
    let pushed := st.before_context_buffer ++ [(lc, line)]
    ({ line_count := lc
       before_context_buffer := if B < pushed.length then pushed.tail else pushed
       lines_after_match := st.lines_after_match
       printing_block_active := false },
      ([] : List OutputEvent))

/-- Accumulating step for the no-flag variant. -/
def stepAccNF (m : String → Bool) (B A : Nat) (acc : GrepState × List OutputEvent)
    (line : String) : GrepState × List OutputEvent :=
  ((processLineNF m B A acc.1 line).1, acc.2 ++ (processLineNF m B A acc.1 line).2)

/-- The line-processing loop built from the no-flag variant of the step. -/
def runGrepNF (m : String → Bool) (B A : Nat) (lines : List String) :
    GrepState × List OutputEvent :=
  List.foldl (stepAccNF m B A) (GrepState.new, []) lines

/-- The characters escaped by the regex crate escape function (its
is_meta_character predicate): backslash, dot, plus, star, question mark,
parentheses, pipe, brackets, braces, caret, dollar, hash, ampersand, hyphen
and tilde. -/
def metaCharacters : List Char :=
  [Char.ofNat 92, '.', '+', '*', '?', '(', ')', '|', '[', ']',
   Char.ofNat 123, Char.ofNat 125, '^', '$', '#', '&', '-', '~']

/-- Whether a character is special in the pattern language and must be
escaped. -/
def isMetaCharacter (c : Char) : Bool :=
  metaCharacters.contains c

/-- Escape a character list: a backslash is inserted before every
metacharacter, exactly as the regex crate escape function does. -/
def escapeChars (cs : List Char) : List Char :=
  cs.foldr
    (fun c acc => if isMetaCharacter c then Char.ofNat 92 :: c :: acc else c :: acc) []

/-- Embedding of regex escape as used by run in my_lib.rs to build the
pattern string from the query. -/
def regexEscape (s : String) : String :=
  String.mk (escapeChars s.toList)

/-- Modelled from the spec: the literal fragment of the pattern language of
the external regex crate (the crate itself is not part of this repository).
An escaped character denotes that character literally; an ordinary character
denotes itself; an unescaped metacharacter is a genuine pattern operator and
falls outside the literal fragment, so it is rejected. -/
def lexLiteral : List Char → Option (List Char)
  | [] => some []
  | [c] =>
    if c = Char.ofNat 92 then none
    else if isMetaCharacter c then none
    else some [c]
  | c :: d :: ds =>
    if c = Char.ofNat 92 then (lexLiteral ds).map (fun r => d :: r)
    else if isMetaCharacter c then none
    else (lexLiteral (d :: ds)).map (fun r => c :: r)

/-- Modelled from the spec: compiling a pattern string (the Regex new call of
the source).  On the literal fragment the compiled form is just the list of
literal characters; outside the fragment compilation is not modelled and is
reported as an error carrying the pattern text. -/
def regexNew (p : String) : Except String (List Char) :=
  match lexLiteral p.toList with
  | some lits => Except.ok lits
  | none => Except.error p

/-- Modelled from the spec: the find call of a compiled literal pattern
succeeds on a line exactly when the literal character sequence occurs
contiguously inside the line. -/
def regexMatch (lits : List Char) (line : String) : Bool :=
  decide (lits <:+: line.toList)

/-- Modelled from the spec: plain-substring matching, the reference semantics
against which the escaped-pattern search is compared in property P1. -/
def plainSubstringMatch (pat line : String) : Bool :=
  decide (pat.toList <:+: line.toList)

/-- Fatal run errors, embedding the two error paths of run in my_lib.rs: a
pattern that fails to compile, and an input or output failure while opening
or reading the file. -/
inductive RunError where
  | invalidPattern (msg : String)
  | ioError (msg : String)
  deriving DecidableEq, Repr

/-- Process the stream of per-line read results, embedding the for loop of
run: each successful line goes through processLine; the first failed read
aborts immediately, keeping the output already emitted and processing no
further lines. -/
def consumeLines (m : String → Bool) (B A : Nat) :
    GrepState → List (Except String String) → List OutputEvent × Option RunError
  | _, [] => ([], none)
  | _, Except.error e :: _ => ([], some (RunError.ioError e))
  | st, Except.ok line :: rest =>
    let p := processLine m B A st line
    let r := consumeLines m B A p.1 rest
    (p.2 ++ r.1, r.2)

/-- Embedding of the fallible part of run in my_lib.rs: compile the
constructed pattern string (failures become an invalid-pattern error before
any line is read), then open the file (failures become an input error), then
process the lines.  The file argument is either an open failure or the list
of per-line read results. -/
def runModel (patternString : String) (B A : Nat)
    (file : Except String (List (Except String String))) :
    List OutputEvent × Option RunError :=
  match regexNew patternString with
  | Except.error e =>
    ([], some (RunError.invalidPattern ("Invalid regex pattern: " ++ e)))
  | Except.ok lits =>
    match file with
    | Except.error e => ([], some (RunError.ioError e))
    | Except.ok lineResults => consumeLines (regexMatch lits) B A GrepState.new lineResults

/-- Embedding of the Config struct of config.rs (the parsed command line). -/
structure Config where
  query : String
  file_path : String
  ignore_case : Bool
  line_number : Bool
  word_regexp : Bool
  before_context : Option Nat
  after_context : Option Nat
  deriving DecidableEq, Repr

/-- A single-quote character, used by the banner around the query and the
file path. -/
def squote : String :=
  String.singleton (Char.ofNat 39)

/-- First part of the banner of print_search_info in printer.rs. -/
def bannerHeader (config : Config) : String :=
  "Searching for " ++ (squote ++ (config.query ++ (squote ++ (" in file " ++
    (squote ++ (config.file_path ++ (squote ++ "...")))))))

/-- Banner segment announcing case-insensitive search. -/
def caseSegment : String :=
  "\n(Case-insensitive search)"

/-- Banner segment announcing line numbering. -/
def lineNumSegment : String :=
  "\n(Line numbers enabled)"

/-- Banner segment announcing a positive before-context count. -/
def beforeSegment (b : Nat) : String :=
  "\n(Context before: " ++ (toString b ++ " lines)")

/-- Banner segment announcing a positive after-context count. -/
def afterSegment (a : Nat) : String :=
  "\n(Context after: " ++ (toString a ++ " lines)")

/-- The successive push_str calls of print_search_info in printer.rs: the
header is always pushed, and each option segment is pushed exactly when the
corresponding condition of the source holds. -/
def bannerSegments (config : Config) (b a : Nat) : List String :=
  [bannerHeader config] ++
    (if config.ignore_case then [caseSegment] else []) ++
    (if config.line_number then [lineNumSegment] else []) ++
    (if 0 < b then [beforeSegment b] else []) ++
    (if 0 < a then [afterSegment a] else [])

/-- The banner string printed by print_search_info (coloring is a
presentation concern and is not modelled). -/
def printSearchInfo (config : Config) (b a : Nat) : String :=
  String.join (bannerSegments config b a)

/-- Reachability invariant of the processing loop, relating the state and the
output after any processed prefix: the line counter equals the number of
processed lines; the last emitted line number never exceeds it; the
before-context buffer holds exactly the most recent min B g unemitted lines
where g is the number of lines processed since the last emission; the
printing block is active exactly when the very last processed line was
emitted; a positive after-context counter implies the last line was emitted;
and emitted line numbers are strictly increasing. -/
def RunInv (B : Nat) (lines : List String) (st : GrepState) (out : List OutputEvent) : Prop :=
  st.line_count = lines.length ∧
  lastEmitted out ≤ lines.length ∧
  st.before_context_buffer =
    (List.enumFrom 1 lines).drop
      (lines.length - min B (lines.length - lastEmitted out)) ∧
  (st.printing_block_active = true ↔ lastEmitted out = lines.length ∧ lines ≠ []) ∧
  (0 < st.lines_after_match → lastEmitted out = lines.length ∧ lines ≠ []) ∧
  List.Pairwise (fun a b => a < b) (out.map OutputEvent.lineNum)

example : runGrep (fun s => decide (s = "banana")) 1 1 ["apple", "banana", "cherry", "date"] =
    ({ line_count := 4
       before_context_buffer := [(4, "date")]
       lines_after_match := 0
       printing_block_active := false },
      [OutputEvent.plain 1 "apple", OutputEvent.matchLine 2 "banana",
        OutputEvent.plain 3 "cherry"]) := by
  decide

theorem foldl_max_init (a : Nat) (xs : List Nat) : a ≤ List.foldl Nat.max a xs := by
  induction xs generalizing a with
  | nil => simp
  | cons x xs ih =>
    simp only [List.foldl_cons]
    exact le_trans (Nat.le_max_left a x) (ih (Nat.max a x))

theorem foldl_max_le (a c : Nat) (xs : List Nat) (ha : a ≤ c) (h : ∀ y ∈ xs, y ≤ c) :
    List.foldl Nat.max a xs ≤ c := by
  induction xs generalizing a with
  | nil => simpa using ha
  | cons x xs ih =>
    simp only [List.foldl_cons]
    refine ih (Nat.max a x) (Nat.max_le.mpr ⟨ha, h x (List.mem_cons_self x xs)⟩) ?_
    intro y hy
    exact h y (List.mem_cons_of_mem x hy)

theorem le_foldl_max (a x : Nat) (xs : List Nat) (hx : x ∈ xs) :
    x ≤ List.foldl Nat.max a xs := by
  induction xs generalizing a with
  | nil => cases hx
  | cons z zs ih =>
    simp only [List.foldl_cons]
    rcases List.mem_cons.mp hx with h | h
    · subst h
      exact le_trans (Nat.le_max_right a x) (foldl_max_init _ zs)
    · exact ih (Nat.max a z) h

theorem lastEmitted_append (out evts : List OutputEvent) :
    lastEmitted (out ++ evts) =
      List.foldl Nat.max (lastEmitted out) (evts.map OutputEvent.lineNum) := by
  simp [lastEmitted, List.foldl_append]

theorem le_lastEmitted (out : List OutputEvent) (e : OutputEvent) (he : e ∈ out) :
    e.lineNum ≤ lastEmitted out :=
  le_foldl_max _ _ _ (List.mem_map_of_mem _ he)

theorem drop_range' : ∀ (k s n : Nat), (List.range' s n).drop k = List.range' (s + k) (n - k)
  | 0, _, _ => by simp
  | k + 1, s, 0 => by simp
  | k + 1, s, n + 1 => by
    have h := drop_range' k (s + 1) n
    rw [List.range'_succ, List.drop_succ_cons, h]
    congr 1 <;> omega

theorem pairwise_lt_range' : ∀ (s n : Nat), (List.range' s n).Pairwise (fun a b => a < b)
  | _, 0 => List.Pairwise.nil
  | s, n + 1 => by
    rw [List.range'_succ]
    refine List.pairwise_cons.mpr ⟨?_, pairwise_lt_range' (s + 1) n⟩
    intro b hb
    have := List.mem_range'_1.mp hb
    omega

theorem map_lineNum_flush (buf : List (Nat × String)) :
    List.map OutputEvent.lineNum (buf.map fun p => OutputEvent.plain p.1 p.2) =
      buf.map Prod.fst := by
  induction buf with
  | nil => rfl
  | cons p ps ih => simp [ih, OutputEvent.lineNum]

theorem runGrep_append (m : String → Bool) (B A : Nat) (xs : List String) (x : String) :
    runGrep m B A (xs ++ [x]) = stepAcc m B A (runGrep m B A xs) x := by
  simp [runGrep, List.foldl_append]

theorem runGrepNF_append (m : String → Bool) (B A : Nat) (xs : List String) (x : String) :
    runGrepNF m B A (xs ++ [x]) = stepAccNF m B A (runGrepNF m B A xs) x := by
  simp [runGrepNF, List.foldl_append]

theorem processLine_match (m : String → Bool) (B A : Nat) (st : GrepState) (line : String)
    (hm : m line = true) :
    processLine m B A st line =
      ({ line_count := st.line_count + 1
         before_context_buffer := []
         lines_after_match := A
         printing_block_active := true },
        (if st.printing_block_active = false ∧ 0 < B then
            st.before_context_buffer.map (fun p => OutputEvent.plain p.1 p.2)
          else []) ++ [OutputEvent.matchLine (st.line_count + 1) line]) := by
  simp [processLine, hm]

theorem processLine_after (m : String → Bool) (B A : Nat) (st : GrepState) (line : String)
    (hm : m line = false) (hc : 0 < st.lines_after_match) :
    processLine m B A st line =
      ({ line_count := st.line_count + 1
         before_context_buffer := st.before_context_buffer
         lines_after_match := st.lines_after_match - 1
         printing_block_active := true },
        [OutputEvent.plain (st.line_count + 1) line]) := by
  simp [processLine, hm, hc]

theorem processLine_buffer (m : String → Bool) (B A : Nat) (st : GrepState) (line : String)
    (hm : m line = false) (hc : st.lines_after_match = 0) :
    processLine m B A st line =
      ({ line_count := st.line_count + 1
         before_context_buffer :=
           if B < (st.before_context_buffer ++ [(st.line_count + 1, line)]).length then
             (st.before_context_buffer ++ [(st.line_count + 1, line)]).tail
           else st.before_context_buffer ++ [(st.line_count + 1, line)]
         lines_after_match := st.lines_after_match
         printing_block_active := false },
        []) := by
  simp [processLine, hm, hc]

theorem runInv_step (m : String → Bool) (B A : Nat) (xs : List String) (x : String)
    (st : GrepState) (out : List OutputEvent) (h : RunInv B xs st out) :
    RunInv B (xs ++ [x]) (processLine m B A st x).1 (out ++ (processLine m B A st x).2) := by
  obtain ⟨h1, h2, h3, h4, h5, h6⟩ := h
  have hM1 : min B (xs.length - lastEmitted out) ≤ B := min_le_left _ _
  have hM2 : min B (xs.length - lastEmitted out) ≤ xs.length - lastEmitted out :=
    min_le_right _ _
  have henum : List.enumFrom 1 (xs ++ [x]) =
      List.enumFrom 1 xs ++ [(xs.length + 1, x)] := by
    rw [List.enumFrom_append]
    simp [Nat.add_comm]
  have hlenx : (xs ++ [x]).length = xs.length + 1 := by simp
  have hne : xs ++ [x] ≠ [] := by simp
  have hbufnums : List.map Prod.fst st.before_context_buffer =
      List.range' (1 + (xs.length - min B (xs.length - lastEmitted out)))
        (xs.length - (xs.length - min B (xs.length - lastEmitted out))) := by
    rw [h3, List.map_drop, List.enumFrom_map_fst, drop_range']
  have hmem : ∀ y ∈ List.map Prod.fst st.before_context_buffer,
      lastEmitted out < y ∧ y ≤ xs.length := by
    intro y hy
    rw [hbufnums] at hy
    have hy2 := List.mem_range'_1.mp hy
    omega
  have hpwbuf : List.Pairwise (fun a b => a < b)
      (List.map Prod.fst st.before_context_buffer) := by
    rw [hbufnums]
    exact pairwise_lt_range' _ _
  have hbl : st.before_context_buffer.length =
      min B (xs.length - lastEmitted out) := by
    rw [h3, List.length_drop, List.enumFrom_length]
    omega
  by_cases hm : m x = true
  · -- match path
    rw [processLine_match m B A st x hm, h1]
    by_cases hpb : st.printing_block_active = false ∧ 0 < B
    · rw [if_pos hpb]
      have hble : List.foldl Nat.max (lastEmitted out)
          (List.map Prod.fst st.before_context_buffer) ≤ xs.length :=
        foldl_max_le _ _ _ h2 (fun y hy => (hmem y hy).2)
      have hlast : lastEmitted (out ++
          ((st.before_context_buffer.map fun p => OutputEvent.plain p.1 p.2) ++
            [OutputEvent.matchLine (xs.length + 1) x])) = xs.length + 1 := by
        rw [lastEmitted_append, List.map_append, List.foldl_append, map_lineNum_flush]
        simp only [List.map_cons, List.map_nil, List.foldl_cons, List.foldl_nil,
          OutputEvent.lineNum]
        exact Nat.max_eq_right (by omega)
      unfold RunInv
      dsimp only
      rw [hlast, hlenx]
      refine ⟨rfl, Nat.le_refl _, ?_, by simp [hne], fun _ => ⟨rfl, hne⟩, ?_⟩
      · rw [Nat.sub_self, min_zero, Nat.sub_zero]
        refine (List.drop_eq_nil_of_le ?_).symm
        simp [List.enumFrom_length]
      · simp only [List.map_append, map_lineNum_flush, List.map_cons, List.map_nil,
          OutputEvent.lineNum]
        rw [List.pairwise_append]
        refine ⟨h6, ?_, ?_⟩
        · rw [List.pairwise_append]
          refine ⟨hpwbuf, List.pairwise_singleton _ _, ?_⟩
          intro a ha b hb
          rw [List.mem_singleton] at hb
          subst hb
          exact Nat.lt_of_le_of_lt (hmem a ha).2 (Nat.lt_succ_self _)
        · intro a ha b hb
          have haL : a ≤ lastEmitted out := le_foldl_max 0 a _ ha
          rcases List.mem_append.mp hb with hb | hb
          · exact Nat.lt_of_le_of_lt haL (hmem b hb).1
          · rw [List.mem_singleton] at hb
            subst hb
            omega
    · rw [if_neg hpb]
      have hlast : lastEmitted (out ++ ([] ++ [OutputEvent.matchLine (xs.length + 1) x])) =
          xs.length + 1 := by
        rw [lastEmitted_append]
        simp only [List.nil_append, List.map_cons, List.map_nil, List.foldl_cons,
          List.foldl_nil, OutputEvent.lineNum]
        exact Nat.max_eq_right (by omega)
      unfold RunInv
      dsimp only
      rw [hlast, hlenx]
      refine ⟨rfl, Nat.le_refl _, ?_, by simp [hne], fun _ => ⟨rfl, hne⟩, ?_⟩
      · rw [Nat.sub_self, min_zero, Nat.sub_zero]
        refine (List.drop_eq_nil_of_le ?_).symm
        simp [List.enumFrom_length]
      · simp only [List.nil_append, List.map_append, List.map_cons, List.map_nil,
          OutputEvent.lineNum]
        rw [List.pairwise_append]
        refine ⟨h6, List.pairwise_singleton _ _, ?_⟩
        intro a ha b hb
        have haL : a ≤ lastEmitted out := le_foldl_max 0 a _ ha
        rw [List.mem_singleton] at hb
        subst hb
        omega
  · simp only [Bool.not_eq_true] at hm
    rcases Nat.eq_zero_or_pos st.lines_after_match with hc | hc
    · -- buffering path
      rw [processLine_buffer m B A st x hm hc, h1]
      unfold RunInv
      dsimp only
      rw [List.append_nil, hlenx, henum]
      refine ⟨rfl, by omega, ?_, ?_, ?_, h6⟩
      · by_cases hov : B < (st.before_context_buffer ++ [(xs.length + 1, x)]).length
        · rw [if_pos hov]
          have hovN : B ≤ min B (xs.length - lastEmitted out) := by
            rw [List.length_append, List.length_cons, List.length_nil, hbl] at hov
            omega
          have hMB : min B (xs.length - lastEmitted out) = B :=
            Nat.le_antisymm hM1 hovN
          have hMB2 : min B (xs.length + 1 - lastEmitted out) = B :=
            min_eq_left (by omega)
          have hdl : (List.drop (xs.length - min B (xs.length - lastEmitted out))
              (List.enumFrom 1 xs)).length =
              min B (xs.length - lastEmitted out) := by
            rw [List.length_drop, List.enumFrom_length]
            omega
          rw [← List.drop_one, h3, List.drop_append_eq_append_drop, List.drop_drop,
            List.drop_append_eq_append_drop, hdl, List.enumFrom_length]
          have e4 : xs.length + 1 - min B (xs.length + 1 - lastEmitted out) =
              xs.length - min B (xs.length - lastEmitted out) + 1 := by
            rw [hMB, hMB2]
            omega
          have e5 : xs.length - min B (xs.length - lastEmitted out) + 1 - xs.length =
              1 - min B (xs.length - lastEmitted out) := by
            rw [hMB]
            omega
          rw [e4, e5]
        · rw [if_neg hov]
          have hovN : min B (xs.length - lastEmitted out) + 1 ≤ B := by
            rw [List.length_append, List.length_cons, List.length_nil, hbl] at hov
            omega
          have hMg : min B (xs.length - lastEmitted out) =
              xs.length - lastEmitted out := by
            rcases Nat.le_total B (xs.length - lastEmitted out) with hle | hle
            · exact absurd (min_eq_left hle) (by omega)
            · exact min_eq_right hle
          have hMg2 : min B (xs.length + 1 - lastEmitted out) =
              xs.length + 1 - lastEmitted out :=
            min_eq_right (by omega)
          rw [h3, List.drop_append_eq_append_drop, List.enumFrom_length]
          have e4 : xs.length + 1 - min B (xs.length + 1 - lastEmitted out) =
              xs.length - min B (xs.length - lastEmitted out) := by
            rw [hMg, hMg2]
            omega
          have e5 : xs.length - min B (xs.length - lastEmitted out) - xs.length = 0 := by
            omega
          rw [e4, e5, List.drop_zero]
      · simp only [Bool.false_eq_true, false_iff]
        intro hcon
        exact absurd hcon.1 (by omega)
      · intro hpos
        exact absurd hpos (by omega)
    · -- after-context path
      rw [processLine_after m B A st x hm hc, h1]
      obtain ⟨hLn, hxs⟩ := h5 hc
      have hlast : lastEmitted (out ++ [OutputEvent.plain (xs.length + 1) x]) =
          xs.length + 1 := by
        rw [lastEmitted_append]
        simp only [List.map_cons, List.map_nil, List.foldl_cons, List.foldl_nil,
          OutputEvent.lineNum]
        exact Nat.max_eq_right (by omega)
      unfold RunInv
      dsimp only
      rw [hlast, hlenx, henum]
      refine ⟨rfl, Nat.le_refl _, ?_, by simp [hne], fun _ => ⟨rfl, hne⟩, ?_⟩
      · rw [h3, hLn, Nat.sub_self, min_zero, Nat.sub_zero, Nat.sub_self,
          min_zero, Nat.sub_zero]
        have d1 : List.drop xs.length (List.enumFrom 1 xs) = [] :=
          List.drop_eq_nil_of_le (by simp [List.enumFrom_length])
        have d2 : List.drop (xs.length + 1)
            (List.enumFrom 1 xs ++ [(xs.length + 1, x)]) = [] :=
          List.drop_eq_nil_of_le (by simp [List.enumFrom_length])
        rw [d1, d2]
      · simp only [List.map_append, List.map_cons, List.map_nil, OutputEvent.lineNum]
        rw [List.pairwise_append]
        refine ⟨h6, List.pairwise_singleton _ _, ?_⟩
        intro a ha b hb
        have haL : a ≤ lastEmitted out := le_foldl_max 0 a _ ha
        rw [List.mem_singleton] at hb
        subst hb
        omega

theorem runGrep_inv (m : String → Bool) (B A : Nat) (lines : List String) :
    RunInv B lines (runGrep m B A lines).1 (runGrep m B A lines).2 := by
  induction lines using List.reverseRecOn with
  | nil =>
    simp [RunInv, runGrep, GrepState.new, lastEmitted]
  | append_singleton xs x ih =>
    rw [runGrep_append]
    exact runInv_step m B A xs x _ _ ih

theorem processLineNF_eq (m : String → Bool) (B A : Nat) (st : GrepState) (x : String)
    (hinv : st.printing_block_active = true → st.before_context_buffer = []) :
    processLineNF m B A st x = processLine m B A st x := by
  by_cases hm : m x = true
  · unfold processLine processLineNF
    by_cases hpb : st.printing_block_active = false
    · simp [hm, hpb]
    · have hpbt : st.printing_block_active = true := by
        cases hb : st.printing_block_active
        · exact absurd hb hpb
        · rfl
      rw [hinv hpbt]
      simp [hm, hpbt]
  · simp only [Bool.not_eq_true] at hm
    unfold processLine processLineNF
    simp [hm]

theorem runGrepNF_eq (m : String → Bool) (B A : Nat) (lines : List String) :
    runGrepNF m B A lines = runGrep m B A lines := by
  induction lines using List.reverseRecOn with
  | nil => rfl
  | append_singleton xs x ih =>
    rw [runGrepNF_append, runGrep_append, ih]
    obtain ⟨h1, h2, h3, h4, h5, h6⟩ := runGrep_inv m B A xs
    have hinv : (runGrep m B A xs).1.printing_block_active = true →
        (runGrep m B A xs).1.before_context_buffer = [] := by
      intro hpbt
      rw [h3, (h4.mp hpbt).1, Nat.sub_self, min_zero, Nat.sub_zero]
      exact List.drop_eq_nil_of_le (by simp [List.enumFrom_length])
    unfold stepAcc stepAccNF
    rw [processLineNF_eq m B A _ x hinv]

theorem foldl_stepAcc_acc (m : String → Bool) (B A : Nat) (pre : List String) :
    ∀ (st : GrepState) (acc : List OutputEvent),
      List.foldl (stepAcc m B A) (st, acc) pre =
        ((List.foldl (stepAcc m B A) (st, ([] : List OutputEvent)) pre).1,
          acc ++ (List.foldl (stepAcc m B A) (st, ([] : List OutputEvent)) pre).2) := by
  induction pre with
  | nil =>
    intro st acc
    simp
  | cons l pre ih =>
    intro st acc
    simp only [List.foldl_cons, stepAcc, List.nil_append]
    rw [ih (processLine m B A st l).1 (acc ++ (processLine m B A st l).2),
      ih (processLine m B A st l).1 (processLine m B A st l).2]
    simp [List.append_assoc]

theorem consumeLines_untilError (m : String → Bool) (B A : Nat) (e : String)
    (rest : List (Except String String)) (pre : List String) :
    ∀ st : GrepState,
      consumeLines m B A st (pre.map Except.ok ++ Except.error e :: rest) =
        ((List.foldl (stepAcc m B A) (st, ([] : List OutputEvent)) pre).2,
          some (RunError.ioError e)) := by
  induction pre with
  | nil =>
    intro st
    simp [consumeLines]
  | cons l pre ih =>
    intro st
    simp only [List.map_cons, List.cons_append, consumeLines, List.append_eq]
    rw [ih (processLine m B A st l).1]
    simp only [List.foldl_cons, stepAcc, List.nil_append]
    rw [foldl_stepAcc_acc m B A pre (processLine m B A st l).1 (processLine m B A st l).2]

theorem backslash_meta : isMetaCharacter (Char.ofNat 92) = true := by decide

theorem escapeChars_cons (c : Char) (cs : List Char) :
    escapeChars (c :: cs) =
      if isMetaCharacter c then Char.ofNat 92 :: c :: escapeChars cs
      else c :: escapeChars cs := rfl

theorem lexLiteral_escapeChars : ∀ cs : List Char, lexLiteral (escapeChars cs) = some cs := by
  intro cs
  induction cs with
  | nil => rfl
  | cons c cs ih =>
    rw [escapeChars_cons]
    by_cases hc : isMetaCharacter c = true
    · rw [if_pos hc]
      simp [lexLiteral, ih]
    · rw [if_neg hc]
      have hc92 : ¬(c = Char.ofNat 92) := by
        intro hceq
        rw [hceq] at hc
        exact hc backslash_meta
      cases hE : escapeChars cs with
      | nil =>
        have hcs : cs = [] := by
          cases cs with
          | nil => rfl
          | cons d ds =>
            rw [escapeChars_cons] at hE
            by_cases hd : isMetaCharacter d = true
            · rw [if_pos hd] at hE
              cases hE
            · rw [if_neg hd] at hE
              cases hE
        subst hcs
        show lexLiteral [c] = some [c]
        simp [lexLiteral, hc92, hc]
      | cons d ds =>
        simp only [lexLiteral]
        rw [if_neg hc92, if_neg hc, ← hE, ih]
        rfl

theorem escapeChars_of_no_meta (cs : List Char)
    (h : ∀ c ∈ cs, isMetaCharacter c = false) :
    escapeChars cs = cs := by
  induction cs with
  | nil => rfl
  | cons c cs ih =>
    have hc : isMetaCharacter c = false := h c (List.mem_cons_self c cs)
    rw [escapeChars_cons, hc]
    simp only [Bool.false_eq_true, if_false]
    rw [ih (fun d hd => h d (List.mem_cons_of_mem c hd))]

theorem regexNew_escape (p : String) :
    regexNew (regexEscape p) = Except.ok p.toList := by
  unfold regexNew regexEscape
  rw [show (String.mk (escapeChars p.toList)).toList = escapeChars p.toList from rfl,
    lexLiteral_escapeChars]

/-- C1: for a line that matches the pattern, the processing step performs
exactly the match path: when printing_block_active is false and the
before-context count B is positive it first emits every entry of the
before-context buffer in FIFO order, oldest (the list front) first, as plain
context lines, followed by the current line as a highlighted match; otherwise
only the match is emitted; in all cases the buffer is cleared, the
after-context counter is set to A and printing_block_active is set to true. -/
theorem match_path_spec (m : String → Bool) (B A : Nat) (st : GrepState) (l : String)
    (hm : m l = true) :
    (st.printing_block_active = false ∧ 0 < B →
      (processLine m B A st l).2 =
        st.before_context_buffer.map (fun p => OutputEvent.plain p.1 p.2) ++
          [OutputEvent.matchLine (st.line_count + 1) l]) ∧
    (st.printing_block_active = true ∨ B = 0 →
      (processLine m B A st l).2 = [OutputEvent.matchLine (st.line_count + 1) l]) ∧
    (processLine m B A st l).1.before_context_buffer = [] ∧
    (processLine m B A st l).1.lines_after_match = A ∧
    (processLine m B A st l).1.printing_block_active = true := by
  rw [processLine_match m B A st l hm]
  refine ⟨?_, ?_, rfl, rfl, rfl⟩
  · intro hcond
    dsimp only
    rw [if_pos hcond]
  · intro hcond
    dsimp only
    have hnc : ¬(st.printing_block_active = false ∧ 0 < B) := by
      rintro ⟨hpf, hB⟩
      rcases hcond with hct | hb0
      · rw [hct] at hpf
        cases hpf
      · omega
    rw [if_neg hnc, List.nil_append]

theorem match_path_spec_witness :
    (false = false ∧ 0 < 2 →
      (processLine (fun s => decide (s = "hit")) 2 1
          ⟨2, [(1, "u"), (2, "v")], 0, false⟩ "hit").2 =
        [OutputEvent.plain 1 "u", OutputEvent.plain 2 "v",
          OutputEvent.matchLine 3 "hit"]) ∧
    (false = true ∨ 2 = 0 →
      (processLine (fun s => decide (s = "hit")) 2 1
          ⟨2, [(1, "u"), (2, "v")], 0, false⟩ "hit").2 =
        [OutputEvent.matchLine 3 "hit"]) ∧
    (processLine (fun s => decide (s = "hit")) 2 1
        ⟨2, [(1, "u"), (2, "v")], 0, false⟩ "hit").1.before_context_buffer = [] ∧
    (processLine (fun s => decide (s = "hit")) 2 1
        ⟨2, [(1, "u"), (2, "v")], 0, false⟩ "hit").1.lines_after_match = 1 ∧
    (processLine (fun s => decide (s = "hit")) 2 1
        ⟨2, [(1, "u"), (2, "v")], 0, false⟩ "hit").1.printing_block_active = true :=
  match_path_spec (fun s => decide (s = "hit")) 2 1
    ⟨2, [(1, "u"), (2, "v")], 0, false⟩ "hit" (by decide)

/-- C2: for an isolated match, one processed while no printing block is
active, the step emits exactly min B a plain context lines immediately before
the match event, where a is the number of lines available since the start of
the file or since the last emitted line. -/
theorem before_context_bound (m : String → Bool) (B A : Nat) (lines : List String)
    (l : String) (hm : m l = true)
    (hiso : (runGrep m B A lines).1.printing_block_active = false) :
    ∃ ctx : List OutputEvent,
      (processLine m B A (runGrep m B A lines).1 l).2 =
        ctx ++ [OutputEvent.matchLine (lines.length + 1) l] ∧
      (∀ e ∈ ctx, ∃ k s, e = OutputEvent.plain k s) ∧
      ctx.length = min B (availablePreceding lines.length (runGrep m B A lines).2) := by
  obtain ⟨h1, h2, h3, h4, h5, h6⟩ := runGrep_inv m B A lines
  have hbl : (runGrep m B A lines).1.before_context_buffer.length =
      min B (lines.length - lastEmitted (runGrep m B A lines).2) := by
    rw [h3, List.length_drop, List.enumFrom_length]
    have := min_le_right B (lines.length - lastEmitted (runGrep m B A lines).2)
    omega
  rw [processLine_match m B A _ l hm, h1]
  dsimp only
  by_cases hB : 0 < B
  · rw [if_pos ⟨hiso, hB⟩]
    refine ⟨_, rfl, ?_, ?_⟩
    · intro e he
      rw [List.mem_map] at he
      obtain ⟨p, _, he⟩ := he
      exact ⟨p.1, p.2, he.symm⟩
    · rw [List.length_map, hbl]
      rfl
  · have hnc : ¬((runGrep m B A lines).1.printing_block_active = false ∧ 0 < B) := by
      rintro ⟨_, hB2⟩
      omega
    rw [if_neg hnc, List.nil_append]
    refine ⟨[], by simp, by simp, ?_⟩
    have hB0 : B = 0 := by omega
    rw [hB0]
    exact (min_eq_left (Nat.zero_le _)).symm

theorem before_context_bound_witness :
    ∃ ctx : List OutputEvent,
      (processLine (fun s => decide (s = "b")) 2 0
          (runGrep (fun s => decide (s = "b")) 2 0 ["u", "v", "w"]).1 "b").2 =
        ctx ++ [OutputEvent.matchLine (["u", "v", "w"].length + 1) "b"] ∧
      (∀ e ∈ ctx, ∃ k s, e = OutputEvent.plain k s) ∧
      ctx.length =
        min 2 (availablePreceding ["u", "v", "w"].length
          (runGrep (fun s => decide (s = "b")) 2 0 ["u", "v", "w"]).2) :=
  before_context_bound (fun s => decide (s = "b")) 2 0 ["u", "v", "w"] "b"
    (by decide) (by decide)

/-- C3: after processing any input prefix the before-context buffer holds at
most B entries, and when a buffering step starts from a full buffer the new
entry is appended and the oldest entry, the front of the queue, is evicted. -/
theorem buffer_bounded_eviction (m : String → Bool) (B A : Nat) (lines : List String)
    (l : String) :
    (runGrep m B A lines).1.before_context_buffer.length ≤ B ∧
    (m l = false → (runGrep m B A lines).1.lines_after_match = 0 →
      (runGrep m B A lines).1.before_context_buffer.length = B →
      (processLine m B A (runGrep m B A lines).1 l).1.before_context_buffer =
        ((runGrep m B A lines).1.before_context_buffer ++
          [((runGrep m B A lines).1.line_count + 1, l)]).tail) := by
  obtain ⟨h1, h2, h3, h4, h5, h6⟩ := runGrep_inv m B A lines
  constructor
  · rw [h3, List.length_drop, List.enumFrom_length]
    have := min_le_left B (lines.length - lastEmitted (runGrep m B A lines).2)
    omega
  · intro hm hc hfull
    rw [processLine_buffer m B A _ l hm hc]
    dsimp only
    rw [if_pos (by
      rw [List.length_append, List.length_cons, List.length_nil, hfull]
      omega)]

theorem buffer_bounded_eviction_witness :
    (runGrep (fun s => decide (s = "q")) 1 0 ["a", "b"]).1.before_context_buffer.length ≤ 1 ∧
    (processLine (fun s => decide (s = "q")) 1 0
        (runGrep (fun s => decide (s = "q")) 1 0 ["a", "b"]).1 "c").1.before_context_buffer =
      ((runGrep (fun s => decide (s = "q")) 1 0 ["a", "b"]).1.before_context_buffer ++
        [((runGrep (fun s => decide (s = "q")) 1 0 ["a", "b"]).1.line_count + 1,
          "c")]).tail :=
  ⟨(buffer_bounded_eviction (fun s => decide (s = "q")) 1 0 ["a", "b"] "c").1,
    (buffer_bounded_eviction (fun s => decide (s = "q")) 1 0 ["a", "b"] "c").2
      (by decide) (by decide) (by decide)⟩

/-- C4: a line that matches while the after-context counter is positive takes
the match path: it is emitted exactly once, as a match and not as leftover
after-context, and the after-context counter is refreshed to A. -/
theorem match_during_after_context (m : String → Bool) (B A : Nat) (lines : List String)
    (l : String) (hm : m l = true)
    (hcnt : 0 < (runGrep m B A lines).1.lines_after_match) :
    (processLine m B A (runGrep m B A lines).1 l).2 =
      [OutputEvent.matchLine (lines.length + 1) l] ∧
    (processLine m B A (runGrep m B A lines).1 l).1.lines_after_match = A := by
  obtain ⟨h1, h2, h3, h4, h5, h6⟩ := runGrep_inv m B A lines
  obtain ⟨hLn, hlne⟩ := h5 hcnt
  have hpbt : (runGrep m B A lines).1.printing_block_active = true := h4.mpr ⟨hLn, hlne⟩
  rw [processLine_match m B A _ l hm, h1]
  dsimp only
  constructor
  · have hnc : ¬((runGrep m B A lines).1.printing_block_active = false ∧ 0 < B) := by
      rintro ⟨hpf, _⟩
      rw [hpbt] at hpf
      cases hpf
    rw [if_neg hnc, List.nil_append]
  · rfl

theorem match_during_after_context_witness :
    (processLine (fun s => decide (s = "x")) 1 2
        (runGrep (fun s => decide (s = "x")) 1 2 ["x"]).1 "x").2 =
      [OutputEvent.matchLine (["x"].length + 1) "x"] ∧
    (processLine (fun s => decide (s = "x")) 1 2
        (runGrep (fun s => decide (s = "x")) 1 2 ["x"]).1 "x").1.lines_after_match = 2 :=
  match_during_after_context (fun s => decide (s = "x")) 1 2 ["x"] "x"
    (by decide) (by decide)

/-- C5: for a pattern string with no metacharacters, escaping is the identity,
the escaped pattern compiles, and the compiled pattern matches a line exactly
when plain substring containment does. -/
theorem literal_equivalence (p line : String)
    (hp : ∀ c ∈ p.toList, isMetaCharacter c = false) :
    regexEscape p = p ∧
    ∃ lits, regexNew (regexEscape p) = Except.ok lits ∧
      regexMatch lits line = plainSubstringMatch p line := by
  constructor
  · unfold regexEscape
    rw [escapeChars_of_no_meta p.toList hp]
    rfl
  · exact ⟨p.toList, regexNew_escape p, rfl⟩

theorem literal_equivalence_witness :
    regexEscape "ab" = "ab" ∧
    ∃ lits, regexNew (regexEscape "ab") = Except.ok lits ∧
      regexMatch lits "zabz" = plainSubstringMatch "ab" "zabz" :=
  literal_equivalence "ab" "zabz" (by decide)

/-- C6: within one run no input line is emitted twice: the emitted line
numbers are pairwise distinct, so in particular a line printed as
after-context is never re-emitted later as before-context. -/
theorem no_line_emitted_twice (m : String → Bool) (B A : Nat) (lines : List String) :
    ((runGrep m B A lines).2.map OutputEvent.lineNum).Nodup := by
  obtain ⟨-, -, -, -, -, h6⟩ := runGrep_inv m B A lines
  exact h6.imp Nat.ne_of_lt

/-- C7: a pattern that fails to compile makes the run fail with an
invalid-pattern error regardless of the file, before any line is read; a file
open failure fails with an input error and no output; a read failure
mid-stream aborts at the point of failure, keeping the output emitted for the
prefix already processed and touching no later line. -/
theorem run_error_paths (B A : Nat) :
    (∀ p e file, regexNew p = Except.error e →
      runModel p B A file =
        ([], some (RunError.invalidPattern ("Invalid regex pattern: " ++ e)))) ∧
    (∀ p lits e, regexNew p = Except.ok lits →
      runModel p B A (Except.error e) = ([], some (RunError.ioError e))) ∧
    (∀ p lits (pre : List String) e rest, regexNew p = Except.ok lits →
      runModel p B A (Except.ok (pre.map Except.ok ++ Except.error e :: rest)) =
        ((runGrep (regexMatch lits) B A pre).2, some (RunError.ioError e))) := by
  refine ⟨?_, ?_, ?_⟩
  · intro p e file h
    unfold runModel
    rw [h]
  · intro p lits e h
    unfold runModel
    rw [h]
  · intro p lits pre e rest h
    unfold runModel
    rw [h]
    show consumeLines (regexMatch lits) B A GrepState.new
        (pre.map Except.ok ++ Except.error e :: rest) = _
    rw [consumeLines_untilError]
    rfl

theorem run_error_paths_witness :
    runModel "(" 3 4 (Except.ok [Except.ok "aline"]) =
      ([], some (RunError.invalidPattern ("Invalid regex pattern: " ++ "("))) ∧
    runModel "ab" 3 4 (Except.error "boom") = ([], some (RunError.ioError "boom")) ∧
    runModel "ab" 3 4
        (Except.ok (["zab"].map Except.ok ++ Except.error "bad" :: [Except.ok "tail"])) =
      ((runGrep (regexMatch ("ab".toList)) 3 4 ["zab"]).2,
        some (RunError.ioError "bad")) :=
  ⟨(run_error_paths 3 4).1 "(" "(" (Except.ok [Except.ok "aline"]) rfl,
    (run_error_paths 3 4).2.1 "ab" ("ab".toList) "boom" rfl,
    (run_error_paths 3 4).2.2 "ab" ("ab".toList) ["zab"] "bad" [Except.ok "tail"] rfl⟩

/-- C9: the after-context counter is decremented only on the after-context
step, whose guard requires it to be strictly positive, so the decrement of
the unsigned counter is an exact subtraction by one and never underflows. -/
theorem after_counter_exact_decrement (m : String → Bool) (B A : Nat) (st : GrepState)
    (l : String) (hm : m l = false) (hc : 0 < st.lines_after_match) :
    (processLine m B A st l).1.lines_after_match + 1 = st.lines_after_match ∧
    ((processLine m B A st l).1.lines_after_match : Int) =
      (st.lines_after_match : Int) - 1 := by
  rw [processLine_after m B A st l hm hc]
  dsimp only
  omega

theorem after_counter_exact_decrement_witness :
    (processLine (fun s => decide (s = "x")) 0 0
        (⟨5, [], 3, true⟩ : GrepState) "y").1.lines_after_match + 1 = 3 ∧
    ((processLine (fun s => decide (s = "x")) 0 0
        (⟨5, [], 3, true⟩ : GrepState) "y").1.lines_after_match : Int) = (3 : Int) - 1 :=
  after_counter_exact_decrement (fun s => decide (s = "x")) 0 0
    ⟨5, [], 3, true⟩ "y" (by decide) (by decide)

/-- C10: in every reachable state an active printing block implies an empty
before-context buffer, and consequently removing the printing_block_active
test from the flush guard changes neither the final state nor the output of
any run. -/
theorem pba_flag_redundant (m : String → Bool) (B A : Nat) (lines : List String) :
    ((runGrep m B A lines).1.printing_block_active = false ∨
      (runGrep m B A lines).1.before_context_buffer = []) ∧
    runGrepNF m B A lines = runGrep m B A lines := by
  constructor
  · obtain ⟨h1, h2, h3, h4, h5, h6⟩ := runGrep_inv m B A lines
    cases hb : (runGrep m B A lines).1.printing_block_active
    · exact Or.inl rfl
    · refine Or.inr ?_
      rw [h3, (h4.mp hb).1, Nat.sub_self, min_zero, Nat.sub_zero]
      exact List.drop_eq_nil_of_le (by simp [List.enumFrom_length])
  · exact runGrepNF_eq m B A lines

theorem string_toList_append (s t : String) : (s ++ t).toList = s.toList ++ t.toList :=
  String.data_append s t

theorem string_ne_of_get (p x q y : String) (i : Nat)
    (h1 : i < p.toList.length) (h2 : i < q.toList.length)
    (h3 : p.toList[i]? ≠ q.toList[i]?) : p ++ x ≠ q ++ y := by
  intro he
  apply h3
  have ht : p.toList ++ x.toList = q.toList ++ y.toList := by
    rw [← string_toList_append, ← string_toList_append, he]
  have hi := congrArg (fun l => l[i]?) ht
  dsimp only at hi
  rw [List.getElem?_append_left h1, List.getElem?_append_left h2] at hi
  exact hi

theorem string_ne_append_of_get (p q y : String) (i : Nat)
    (h2 : i < q.toList.length) (h3 : p.toList[i]? ≠ q.toList[i]?) : p ≠ q ++ y := by
  intro he
  apply h3
  have ht : p.toList = q.toList ++ y.toList := by
    rw [← string_toList_append, he]
  have hi := congrArg (fun l => l[i]?) ht
  dsimp only at hi
  rw [List.getElem?_append_left h2] at hi
  exact hi

theorem caseSegment_ne_header (config : Config) : caseSegment ≠ bannerHeader config :=
  string_ne_append_of_get caseSegment "Searching for "
    (squote ++ (config.query ++ (squote ++ (" in file " ++
      (squote ++ (config.file_path ++ (squote ++ "..."))))))) 0 (by decide) (by decide)

theorem lineNumSegment_ne_header (config : Config) : lineNumSegment ≠ bannerHeader config :=
  string_ne_append_of_get lineNumSegment "Searching for "
    (squote ++ (config.query ++ (squote ++ (" in file " ++
      (squote ++ (config.file_path ++ (squote ++ "..."))))))) 0 (by decide) (by decide)

theorem beforeSegment_ne_header (config : Config) (b : Nat) :
    beforeSegment b ≠ bannerHeader config :=
  string_ne_of_get "\n(Context before: " (toString b ++ " lines)") "Searching for "
    (squote ++ (config.query ++ (squote ++ (" in file " ++
      (squote ++ (config.file_path ++ (squote ++ "..."))))))) 0
    (by decide) (by decide) (by decide)

theorem afterSegment_ne_header (config : Config) (a : Nat) :
    afterSegment a ≠ bannerHeader config :=
  string_ne_of_get "\n(Context after: " (toString a ++ " lines)") "Searching for "
    (squote ++ (config.query ++ (squote ++ (" in file " ++
      (squote ++ (config.file_path ++ (squote ++ "..."))))))) 0
    (by decide) (by decide) (by decide)

theorem caseSegment_ne_lineNumSegment : caseSegment ≠ lineNumSegment := by
  decide

theorem caseSegment_ne_beforeSegment (b : Nat) : caseSegment ≠ beforeSegment b :=
  string_ne_append_of_get caseSegment "\n(Context before: " (toString b ++ " lines)") 3
    (by decide) (by decide)

theorem caseSegment_ne_afterSegment (a : Nat) : caseSegment ≠ afterSegment a :=
  string_ne_append_of_get caseSegment "\n(Context after: " (toString a ++ " lines)") 3
    (by decide) (by decide)

theorem lineNumSegment_ne_beforeSegment (b : Nat) : lineNumSegment ≠ beforeSegment b :=
  string_ne_append_of_get lineNumSegment "\n(Context before: " (toString b ++ " lines)") 2
    (by decide) (by decide)

theorem lineNumSegment_ne_afterSegment (a : Nat) : lineNumSegment ≠ afterSegment a :=
  string_ne_append_of_get lineNumSegment "\n(Context after: " (toString a ++ " lines)") 2
    (by decide) (by decide)

theorem beforeSegment_ne_afterSegment (b a : Nat) : beforeSegment b ≠ afterSegment a :=
  string_ne_of_get "\n(Context before: " (toString b ++ " lines)")
    "\n(Context after: " (toString a ++ " lines)") 10 (by decide) (by decide) (by decide)

/-- C8 counterexample: two configurations differing only in the whole-word
flag produce byte-identical banners, so the banner does not mention the
whole-word option even when its value differs from the default. -/
theorem banner_word_regexp_cex :
    (Config.mk "a" "f" false false true none none).word_regexp = true ∧
    (Config.mk "a" "f" false false false none none).word_regexp = false ∧
    printSearchInfo (Config.mk "a" "f" false false true none none) 0 0 =
      printSearchInfo (Config.mk "a" "f" false false false none none) 0 0 :=
  ⟨rfl, rfl, rfl⟩

theorem toList_foldl_append (l : List String) :
    ∀ acc : String, (List.foldl (fun r s => r ++ s) acc l).toList =
      acc.toList ++ (List.foldl (fun r s => r ++ s) "" l).toList := by
  induction l with
  | nil =>
    intro acc
    rw [List.foldl_nil, List.foldl_nil, show ("" : String).toList = [] from rfl,
      List.append_nil]
  | cons h t ih =>
    intro acc
    rw [List.foldl_cons, List.foldl_cons, ih (acc ++ h), ih ("" ++ h),
      string_toList_append, string_toList_append,
      show ("" : String).toList = [] from rfl]
    simp [List.append_assoc]

theorem printSearchInfo_head (config : Config) (b a : Nat) :
    ∃ rest : List Char,
      (printSearchInfo config b a).toList = (bannerHeader config).toList ++ rest := by
  refine ⟨(List.foldl (fun r s => r ++ s) ""
    ((((if config.ignore_case then [caseSegment] else []) ++
        (if config.line_number then [lineNumSegment] else [])) ++
      (if 0 < b then [beforeSegment b] else [])) ++
      (if 0 < a then [afterSegment a] else []))).toList, ?_⟩
  rw [show printSearchInfo config b a =
    List.foldl (fun r s => r ++ s) ("" ++ bannerHeader config)
      ((((if config.ignore_case then [caseSegment] else []) ++
          (if config.line_number then [lineNumSegment] else [])) ++
        (if 0 < b then [beforeSegment b] else [])) ++
        (if 0 < a then [afterSegment a] else [])) from rfl]
  rw [toList_foldl_append, string_toList_append,
    show ("" : String).toList = [] from rfl, List.nil_append]

theorem query_infix_banner (config : Config) (b a : Nat) :
    config.query.toList <:+: (printSearchInfo config b a).toList := by
  obtain ⟨rest, hrest⟩ := printSearchInfo_head config b a
  rw [hrest]
  have hq : config.query.toList <:+: (bannerHeader config).toList := by
    refine ⟨"Searching for ".toList ++ squote.toList,
      (squote ++ (" in file " ++ (squote ++ (config.file_path ++
        (squote ++ "..."))))).toList, ?_⟩
    simp [bannerHeader, string_toList_append, List.append_assoc]
  obtain ⟨s, t, hst⟩ := hq
  refine ⟨s, t ++ rest, ?_⟩
  rw [← hst]
  simp [List.append_assoc]

theorem file_path_infix_banner (config : Config) (b a : Nat) :
    config.file_path.toList <:+: (printSearchInfo config b a).toList := by
  obtain ⟨rest, hrest⟩ := printSearchInfo_head config b a
  rw [hrest]
  have hf : config.file_path.toList <:+: (bannerHeader config).toList := by
    refine ⟨"Searching for ".toList ++ (squote.toList ++ (config.query.toList ++
      (squote.toList ++ (" in file ".toList ++ squote.toList)))),
      (squote ++ "...").toList, ?_⟩
    simp [bannerHeader, string_toList_append, List.append_assoc]
  obtain ⟨s, t, hst⟩ := hf
  refine ⟨s, t ++ rest, ?_⟩
  rw [← hst]
  simp [List.append_assoc]

/-- C8 (amended): the banner always contains the header segment, which states
the search pattern and the file path (both occur verbatim as substrings of
the printed banner); the banner contains the case-insensitive, line-number,
before-context and after-context segments exactly when the corresponding
option differs from its default; and it never depends on the whole-word
option, which is not mentioned at all. -/
theorem banner_mentions_nondefault (config : Config) (b a : Nat) :
    bannerHeader config ∈ bannerSegments config b a ∧
    config.query.toList <:+: (printSearchInfo config b a).toList ∧
    config.file_path.toList <:+: (printSearchInfo config b a).toList ∧
    (caseSegment ∈ bannerSegments config b a ↔ config.ignore_case = true) ∧
    (lineNumSegment ∈ bannerSegments config b a ↔ config.line_number = true) ∧
    (beforeSegment b ∈ bannerSegments config b a ↔ 0 < b) ∧
    (afterSegment a ∈ bannerSegments config b a ↔ 0 < a) ∧
    (∀ w, bannerSegments { config with word_regexp := w } b a =
      bannerSegments config b a) := by
  refine ⟨by simp [bannerSegments], query_infix_banner config b a,
    file_path_infix_banner config b a, ?_, ?_, ?_, ?_, fun w => rfl⟩
  · by_cases hi : config.ignore_case = true <;>
      by_cases hl : config.line_number = true <;>
        by_cases hbp : 0 < b <;>
          by_cases hap : 0 < a <;>
            simp [bannerSegments, hi, hl, hbp, hap, caseSegment_ne_header config,
              caseSegment_ne_lineNumSegment, caseSegment_ne_beforeSegment b,
              caseSegment_ne_afterSegment a]
  · by_cases hi : config.ignore_case = true <;>
      by_cases hl : config.line_number = true <;>
        by_cases hbp : 0 < b <;>
          by_cases hap : 0 < a <;>
            simp [bannerSegments, hi, hl, hbp, hap, lineNumSegment_ne_header config,
              Ne.symm caseSegment_ne_lineNumSegment, lineNumSegment_ne_beforeSegment b,
              lineNumSegment_ne_afterSegment a]
  · by_cases hi : config.ignore_case = true <;>
      by_cases hl : config.line_number = true <;>
        by_cases hbp : 0 < b <;>
          by_cases hap : 0 < a <;>
            simp [bannerSegments, hi, hl, hbp, hap, beforeSegment_ne_header config b,
              Ne.symm (caseSegment_ne_beforeSegment b),
              Ne.symm (lineNumSegment_ne_beforeSegment b),
              beforeSegment_ne_afterSegment b a]
  · by_cases hi : config.ignore_case = true <;>
      by_cases hl : config.line_number = true <;>
        by_cases hbp : 0 < b <;>
          by_cases hap : 0 < a <;>
            simp [bannerSegments, hi, hl, hbp, hap, afterSegment_ne_header config a,
              Ne.symm (caseSegment_ne_afterSegment a),
              Ne.symm (lineNumSegment_ne_afterSegment a),
              Ne.symm (beforeSegment_ne_afterSegment b a)]
